import Mathlib

/-!
Shallow embedding of `tools/rule_transcoder.py` (class `RuleTranscoder`):
the YARA ↔ Cryptex rule-text transcoder.  Rule text is modelled as
`String` / `List String`; the cryptex dictionary (loaded from JSON at
runtime) is a parameter `SymMap` of (key, value) pairs in Python dict
iteration (= insertion) order.  All text handled by the claims is ASCII,
so Python's `str.lower` / `str.title` / `\w` / `\s` are embedded at ASCII
precision.
-/

/-- Association list standing for a Python `dict[str, str]` in iteration
order. -/
abbrev SymMap := List (String × String)

/-- Python `\s` character class (ASCII part): space, tab, newline,
carriage return, vertical tab, form feed. -/
def isPySpace (c : Char) : Bool :=
  c == ' ' || c == '\t' || c == '\n' || c == '\r' ||
  c == Char.ofNat 11 || c == Char.ofNat 12

def isAsciiUpper (c : Char) : Bool := 'A' ≤ c && c ≤ 'Z'

def isAsciiLower (c : Char) : Bool := 'a' ≤ c && c ≤ 'z'

def isAsciiDigit (c : Char) : Bool := '0' ≤ c && c ≤ '9'

def isAsciiAlpha (c : Char) : Bool := isAsciiUpper c || isAsciiLower c

/-- Python regex `\w` character class (ASCII part). -/
def isWordChar (c : Char) : Bool := isAsciiAlpha c || isAsciiDigit c || c == '_'

def asciiLowerChar (c : Char) : Char :=
  if isAsciiUpper c then Char.ofNat (c.toNat + 32) else c

def asciiUpperChar (c : Char) : Char :=
  if isAsciiLower c then Char.ofNat (c.toNat - 32) else c

/-- Python `str.lower()` (ASCII). -/
def pyLower (s : String) : String := String.mk (s.data.map asciiLowerChar)

/-- Python `str.title()` (ASCII): a cased character that follows a
non-alphabetic character is uppercased, all later letters of the same
letter run are lowercased. -/
def pyTitleGo (prevAlpha : Bool) : List Char → List Char
  | [] => []
  | c :: cs =>
    (if isAsciiAlpha c then
        (if prevAlpha then asciiLowerChar c else asciiUpperChar c)
      else c) :: pyTitleGo (isAsciiAlpha c) cs

def pyTitle (s : String) : String := String.mk (pyTitleGo false s.data)

/-- Python `str.strip()` with no argument (whitespace at both ends). -/
def pyStrip (s : String) : String :=
  String.mk (((s.data.dropWhile isPySpace).reverse.dropWhile isPySpace).reverse)

/-- Python `line.rstrip('\n\r')`. -/
def rstripNlCr (s : String) : String :=
  String.mk ((s.data.reverse.dropWhile (fun c => c == '\n' || c == '\r')).reverse)

/-- Python `dict.get`: first binding of `k` in the association list. -/
def lookupStr (k : String) : SymMap → Option String
  | [] => none
  | p :: ps => if p.1 == k then some p.2 else lookupStr k ps

/-- `RuleTranscoder.module_mappings`, in source (= dict insertion) order. -/
def module_mappings : SymMap :=
  [("pe", "IronCurtain"), ("elf", "Ghostwire"), ("dotnet", "Netrunner"),
   ("macho", "Machinist"), ("dex", "Android"), ("hash", "Digest"),
   ("math", "Calculator"), ("time", "Chronometer"), ("string", "TextProcessor"),
   ("console", "Terminal"), ("cuckoo", "Sandbox"), ("magic", "FileType")]

/-- `RuleTranscoder.translate_module_reference`:
`self.module_mappings.get(module_name.lower(), f"Module-{module_name.title()}")`. -/
def translate_module_reference (module_name : String) : String :=
  (lookupStr (pyLower module_name) module_mappings).getD
    ("Module-" ++ pyTitle module_name)

/-!
`re.sub(r'\b(\w+)\.(\w+)', lambda m: f"{tr(m.group(1))}.{m.group(2)}", line)`
as a left-to-right scanner.  Because `(\w+)` is greedy and `\b` requires a
word boundary, a match is exactly: a maximal word run starting at a word
boundary, a literal dot, and a following non-empty maximal word run; the
regex engine then resumes scanning right after the match.  States:
`sub1A` = previous character is a non-word character (or start of string);
`sub1B w` = inside a word run `w` (reversed) that started at a boundary;
`sub1C w1 w2` = have seen `w1` and the dot, collecting `w2` (reversed).
-/
/-- Scanner state for the first substitution: `base` = previous character
is a non-word character (or start of string); `word w` = inside a word run
`w` (reversed) that started at a word boundary; `dot w1 w2` = have seen
`w1` and the literal dot, collecting `w2` (reversed). -/
inductive Scan1 where
  | base : Scan1
  | word (w : List Char) : Scan1
  | dot (w1 w2 : List Char) : Scan1

def sub1Flush : Scan1 → List Char
  | Scan1.base => []
  | Scan1.word w => w.reverse
  | Scan1.dot w1 w2 =>
    if w2.isEmpty then w1.reverse ++ ['.']
    else (translate_module_reference (String.mk w1.reverse)).data ++ '.' :: w2.reverse

def sub1Go : Scan1 → List Char → List Char
  | st, [] => sub1Flush st
  | Scan1.base, c :: cs =>
    if isWordChar c then sub1Go (Scan1.word [c]) cs else c :: sub1Go Scan1.base cs
  | Scan1.word w, c :: cs =>
    if isWordChar c then sub1Go (Scan1.word (c :: w)) cs
    else if c == '.' then sub1Go (Scan1.dot w []) cs
    else w.reverse ++ c :: sub1Go Scan1.base cs
  | Scan1.dot w1 w2, c :: cs =>
    if isWordChar c then sub1Go (Scan1.dot w1 (c :: w2)) cs
    else if w2.isEmpty then w1.reverse ++ '.' :: c :: sub1Go Scan1.base cs
    else (translate_module_reference (String.mk w1.reverse)).data ++ '.' ::
      w2.reverse ++ c :: sub1Go Scan1.base cs

def sub1A (cs : List Char) : List Char := sub1Go Scan1.base cs

/-!
`re.sub(r'\b(\w+)\.(\w+)\s*\(', lambda m: f"{tr(m.group(1))}.{m.group(2)}(", line)`.
Same scanning discipline; additionally the matched whitespace before `(`
is dropped by the replacement.  On a failed match `w1.w2` the engine
retries at the boundary starting `w2`, which succeeds only when the very
next character is a dot (state `sub2C w2 []`).
-/
/-- Scanner state for the second substitution; `spaces w1 w2 ws` = after
`w1 . w2`, consuming the whitespace run `ws` (reversed) allowed by `\s*`
before the required `(`. -/
inductive Scan2 where
  | base : Scan2
  | word (w : List Char) : Scan2
  | dot (w1 w2 : List Char) : Scan2
  | spaces (w1 w2 ws : List Char) : Scan2

def sub2Flush : Scan2 → List Char
  | Scan2.base => []
  | Scan2.word w => w.reverse
  | Scan2.dot w1 w2 => w1.reverse ++ '.' :: w2.reverse
  | Scan2.spaces w1 w2 ws => w1.reverse ++ '.' :: w2.reverse ++ ws.reverse

def sub2Go : Scan2 → List Char → List Char
  | st, [] => sub2Flush st
  | Scan2.base, c :: cs =>
    if isWordChar c then sub2Go (Scan2.word [c]) cs else c :: sub2Go Scan2.base cs
  | Scan2.word w, c :: cs =>
    if isWordChar c then sub2Go (Scan2.word (c :: w)) cs
    else if c == '.' then sub2Go (Scan2.dot w []) cs
    else w.reverse ++ c :: sub2Go Scan2.base cs
  | Scan2.dot w1 w2, c :: cs =>
    if isWordChar c then sub2Go (Scan2.dot w1 (c :: w2)) cs
    else if w2.isEmpty then w1.reverse ++ '.' :: c :: sub2Go Scan2.base cs
    else if c == '(' then
      (translate_module_reference (String.mk w1.reverse)).data ++ '.' ::
        w2.reverse ++ '(' :: sub2Go Scan2.base cs
    else if isPySpace c then sub2Go (Scan2.spaces w1 w2 [c]) cs
    else if c == '.' then w1.reverse ++ '.' :: sub2Go (Scan2.dot w2 []) cs
    else w1.reverse ++ '.' :: w2.reverse ++ c :: sub2Go Scan2.base cs
  | Scan2.spaces w1 w2 ws, c :: cs =>
    if isPySpace c then sub2Go (Scan2.spaces w1 w2 (c :: ws)) cs
    else if c == '(' then
      (translate_module_reference (String.mk w1.reverse)).data ++ '.' ::
        w2.reverse ++ '(' :: sub2Go Scan2.base cs
    else if isWordChar c then
      w1.reverse ++ '.' :: w2.reverse ++ ws.reverse ++ sub2Go (Scan2.word [c]) cs
    else w1.reverse ++ '.' :: w2.reverse ++ ws.reverse ++ c :: sub2Go Scan2.base cs

def sub2A (cs : List Char) : List Char := sub2Go Scan2.base cs

/-- The two successive substitutions applied to a `condition:`-section line
by `_transcode_to_cryptex` (and by `stream_transcode_lines` in
`to_cryptex` mode). -/
def applySubs (l : String) : String := String.mk (sub2A (sub1A l.data))

/-- Matches `re.match(r'^\s*condition:\s*$', line, re.IGNORECASE)` (with
`kw := "condition:"`) and the analogous `strings:` header test: optional
whitespace, the keyword case-insensitively, optional whitespace to the end. -/
def isSectionHeaderExact (kw : String) (l : String) : Bool :=
  let t := l.data.dropWhile isPySpace
  (t.take kw.length).map asciiLowerChar == kw.data &&
    (t.drop kw.length).all isPySpace

/-- Matches `re.match(r'^\s*(meta|rule):', line, re.IGNORECASE)`. -/
def isMetaOrRuleHeader (l : String) : Bool :=
  let t := l.data.dropWhile isPySpace
  (t.take 5).map asciiLowerChar == "meta:".data ||
    (t.take 5).map asciiLowerChar == "rule:".data

/-- Section-detection state `(in_condition, in_strings)` updated per line,
exactly the `if` / `elif` chain shared by `_transcode_to_cryptex` and
`stream_transcode_lines`. -/
def sectionStep (st : Bool × Bool) (l : String) : Bool × Bool :=
  if isSectionHeaderExact "condition:" l then (true, false)
  else if isSectionHeaderExact "strings:" l then (false, true)
  else if isMetaOrRuleHeader l then (false, false)
  else st

/-- Python `content.split('\n')` on the character list. -/
def splitNlGo (cur : List Char) : List Char → List (List Char)
  | [] => [cur.reverse]
  | c :: cs => if c == '\n' then cur.reverse :: splitNlGo [] cs else splitNlGo (c :: cur) cs

def splitNl (s : String) : List String := (splitNlGo [] s.data).map String.mk

/-- Python `'\n'.join(lines)`. -/
def joinWithNl : List String → String
  | [] => ""
  | [l] => l
  | l :: ls => l ++ "\n" ++ joinWithNl ls

/-- Python `''.join(lines)`. -/
def joinAllS (ls : List String) : String := ls.foldl (fun a b => a ++ b) ""

/-- One loop iteration of `_transcode_to_cryptex` (after section
detection): the possibly rewritten line, preceded by the
`    // Original: <stripped original>` tag when the line changed and the
result is not itself a `//` comment.  `inCond` is the `in_condition` flag
after the section-detection step for this line. -/
def toCryptexLineOut (inCond : Bool) (l : String) : List String :=
  let nl := if inCond then applySubs l else l
  (if nl != l && !("//".data.isPrefixOf (pyStrip nl).data) then
      ["    // Original: " ++ pyStrip l]
    else []) ++ [nl]

def toCryptexGo (st : Bool × Bool) : List String → List String
  | [] => []
  | l :: ls =>
    let st2 := sectionStep st l
    toCryptexLineOut st2.1 l ++ toCryptexGo st2 ls

/-- `RuleTranscoder._transcode_to_cryptex` (the forward transform; it
consults only the static module table, never the cryptex symbol map). -/
def transcode_to_cryptex (content : String) : String :=
  joinWithNl (toCryptexGo (false, false) (splitNl content))

/-- The comment marker recognized by the reverse direction. -/
def origMarker : String := "// Original:"

/-- Remainder of `s` after the first occurrence of `pat` (`none` when
`pat` does not occur); `(remAfterFirst pat s).isSome` is Python
`pat in s`. -/
def remAfterFirst (pat : List Char) : List Char → Option (List Char)
  | [] => if pat.isPrefixOf ([] : List Char) then some [] else none
  | c :: cs =>
    if pat.isPrefixOf (c :: cs) then some ((c :: cs).drop pat.length)
    else remAfterFirst pat cs

def containsSubS (pat s : String) : Bool := (remAfterFirst pat.data s.data).isSome

/-- `re.search(r'// Original:\s*(.+)', line)` applied to the remainder `r`
after the first occurrence of the marker: fails when `r` is empty;
otherwise greedy `\s*` plus backtracking yield `r` without its leading
whitespace, or the last (whitespace) character when `r` is all
whitespace. -/
def tagPayload (r : List Char) : Option String :=
  match r with
  | [] => none
  | _ :: _ =>
    match r.dropWhile isPySpace with
    | [] =>
      match r.reverse with
      | [] => none
      | c :: _ => some (String.mk [c])
    | c :: cs => some (String.mk (c :: cs))

/-- Python `s.replace(old, new)` for empty `old`. -/
def replaceEmptyPat (new s : List Char) : List Char :=
  new ++ s.flatMap (fun c => c :: new)

def pyReplaceGo (old new : List Char) : Nat → List Char → List Char
  | _, [] => []
  | 0, s => s
  | fuel + 1, c :: cs =>
    if old.isPrefixOf (c :: cs) then new ++ pyReplaceGo old new fuel ((c :: cs).drop old.length)
    else c :: pyReplaceGo old new fuel cs

/-- Python `s.replace(old, new)`: every non-overlapping occurrence,
left to right.  The fuel (initial length) is an upper bound on the number
of steps; each step consumes at least one character. -/
def pyReplace (s old new : String) : String :=
  if old.data.isEmpty then String.mk (replaceEmptyPat new.data s.data)
  else String.mk (pyReplaceGo old.data new.data s.data.length s.data)

/-- Python `s.split(sep)[-1]`: the part after the last separator. -/
def afterLastSep (sep : Char) (s : String) : String :=
  String.mk ((s.data.reverse.takeWhile (fun c => !(c == sep))).reverse)

/-- `{v: k for k, v in self.module_mappings.items()}`: the codename
values are pairwise distinct, so the dict comprehension is the swapped
list in the same order. -/
def reverse_module_map : SymMap := module_mappings.map (fun p => (p.2, p.1))

/-- The module-reversal loop of `_transcode_from_cryptex` /
`stream_transcode_lines`: for each codename in iteration order, if it
occurs anywhere in the line, replace every occurrence. -/
def revModuleFold (l : String) : String :=
  reverse_module_map.foldl
    (fun acc p => if containsSubS p.1 acc then pyReplace acc p.1 p.2 else acc) l

/-- The function-reversal loop over `self.codename_to_symbol` (`c2s`):
when a codename occurs, its part after the last `-` is replaced by the
symbol's part after the last `_`. -/
def revFuncFold (c2s : SymMap) (l : String) : String :=
  c2s.foldl
    (fun acc p =>
      if containsSubS p.1 acc then
        let funcName := afterLastSep '-' p.1
        if containsSubS funcName acc && p.2 != "" then
          pyReplace acc funcName
            (if containsSubS "_" p.2 then afterLastSep '_' p.2 else p.2)
        else acc
      else acc) l

def revSubLine (c2s : SymMap) (l : String) : String := revFuncFold c2s (revModuleFold l)

/-- One loop iteration of `_transcode_from_cryptex`: a line whose first
marker occurrence has a parsable payload contributes the payload; a
marker line without parsable payload contributes nothing (`continue`
after a failed search); any other line contributes its substituted form. -/
def revLineF (c2s : SymMap) (l : String) : List String :=
  match remAfterFirst origMarker.data l.data with
  | some r =>
    match tagPayload r with
    | some p => [p]
    | none => []
  | none => [revSubLine c2s l]

def fromCryptexGo (c2s : SymMap) : List String → List String
  | [] => []
  | l :: ls => revLineF c2s l ++ fromCryptexGo c2s ls

/-- `RuleTranscoder._transcode_from_cryptex` (the reverse transform),
parameterized by the transcoder's `codename_to_symbol` map `c2s`. -/
def transcode_from_cryptex (c2s : SymMap) (content : String) : String :=
  joinWithNl (fromCryptexGo c2s (splitNl content))

/-- `RuleTranscoder.transcode_rule_content`: dispatch on the mode string
(anything other than `"from_cryptex"` selects the forward direction). -/
def transcode_rule_content (c2s : SymMap) (content mode : String) : String :=
  if mode == "from_cryptex" then transcode_from_cryptex c2s content
  else transcode_to_cryptex content

/-- The tag chunk of `stream_transcode_lines`: emitted after processing
whenever the processed line differs from the original and is not itself a
`//` comment; unlike the batch path, the original line is embedded
unstripped, and every yielded line carries a trailing newline. -/
def streamTag (orig p : String) : List String :=
  if p != orig && !("//".data.isPrefixOf (pyStrip p).data) then
    ["    // Original: " ++ orig ++ "\n"]
  else []

/-- The per-line body of `stream_transcode_lines` (after `rstrip` and
section detection); `inCond` is the `in_condition` flag after the
section-detection step.  A mode string other than the two known modes
passes the line through (the Python `if`/`elif` both fail and the
processed line equals the original).  In `from_cryptex` mode the
`reverse_module_map` local is the same non-empty static table, so the
`if reverse_module_map:` guard is always true. -/
def streamLineOut (c2s : SymMap) (mode : String) (inCond : Bool) (l : String) :
    List String :=
  if mode == "to_cryptex" && inCond then
    let p := applySubs l
    streamTag l p ++ [p ++ "\n"]
  else if mode == "from_cryptex" then
    match remAfterFirst origMarker.data l.data with
    | some r =>
      match tagPayload r with
      | some pay => [pay ++ "\n"]
      | none => []
    | none =>
      let p := revSubLine c2s l
      streamTag l p ++ [p ++ "\n"]
  else [l ++ "\n"]

def streamGo (c2s : SymMap) (mode : String) (st : Bool × Bool) :
    List String → List String
  | [] => []
  | raw :: ls =>
    let l := rstripNlCr raw
    let st2 := sectionStep st l
    streamLineOut c2s mode st2.1 l ++ streamGo c2s mode st2 ls

/-- `RuleTranscoder.stream_transcode_lines` over a materialized input
sequence: the lazy generator's output, in order. -/
def stream_transcode_lines (c2s : SymMap) (mode : String) (lines : List String) :
    List String :=
  streamGo c2s mode (false, false) lines

/-- Python `Path(p).name` for the forward-slash entry names stored in zip
archives. -/
def baseName (p : String) : String := afterLastSep '/' p

/-- Python `s.endswith(suf)`. -/
def hasSuffixS (s suf : String) : Bool := suf.data.reverse.isPrefixOf s.data.reverse

/-- The `.yar` / `.yara` entry filter of `stream_transcode_zip`. -/
def isRuleEntry (name : String) : Bool := hasSuffixS name ".yar" || hasSuffixS name ".yara"

/-- Progress dictionaries yielded by `stream_transcode_zip`, one
constructor per `status` value. -/
inductive ZipEvent where
  | started (totalFiles : Nat) (zipPath : String)
  | processing (file output progress : String)
  | error (file errMsg : String)
  | completed (totalFiles transcodedFiles : Nat) (outputDir : String)
deriving DecidableEq, Repr

/-- The per-entry body of `stream_transcode_zip` inside `try`/`except`:
decode, transcode and write, modelled by `transform`; `Except.error`
stands for a raised exception, which yields an `error` event and
continues with the next entry.  Returns the yielded events and the
`(path, content)` file writes, both in order. -/
def streamZipLoop (transform : String → Except String String) (outDir : String)
    (total count : Nat) : List (String × String) → List ZipEvent × List (String × String)
  | [] => ([ZipEvent.completed total count outDir], [])
  | e :: rest =>
    match transform e.2 with
    | Except.ok t =>
      let outFile := outDir ++ "/" ++ baseName e.1
      let r := streamZipLoop transform outDir total (count + 1) rest
      (ZipEvent.processing e.1 outFile (toString (count + 1) ++ "/" ++ toString total) :: r.1,
       (outFile, t) :: r.2)
    | Except.error msg =>
      let r := streamZipLoop transform outDir total count rest
      (ZipEvent.error e.1 msg :: r.1, r.2)

/-- `RuleTranscoder.stream_transcode_zip`: filter the archive listing to
rule files, emit `started`, process each entry in listing order, emit
`completed`. -/
def stream_transcode_zip (transform : String → Except String String)
    (entries : List (String × String)) (zipPath outDir : String) :
    List ZipEvent × List (String × String) :=
  let fl := entries.filter (fun e => isRuleEntry e.1)
  let r := streamZipLoop transform outDir fl.length 0 fl
  (ZipEvent.started fl.length zipPath :: r.1, r.2)

/-- The concrete per-entry transform of `stream_transcode_zip`:
`''.join(stream_transcode_lines(iter(content.split('\n')), mode))`
(decoding with `errors='ignore'` never raises in the model). -/
def zipEntryTransform (c2s : SymMap) (mode content : String) : Except String String :=
  Except.ok (joinAllS (stream_transcode_lines c2s mode (splitNl content)))

def stream_transcode_zip_run (c2s : SymMap) (mode : String)
    (entries : List (String × String)) (zipPath outDir : String) :
    List ZipEvent × List (String × String) :=
  stream_transcode_zip (zipEntryTransform c2s mode) entries zipPath outDir

/-- Python dict insertion: overwrite in place when the key exists, append
otherwise. -/
def dictInsert (m : SymMap) (k v : String) : SymMap :=
  if (lookupStr k m).isSome then m.map (fun e => if e.1 == k then (k, v) else e)
  else m ++ [(k, v)]

/-- `RuleTranscoder._build_symbol_map` over the dictionary's
`(symbol, pyro_name)` entries: entries with an empty field are skipped. -/
def build_symbol_map (entries : List (String × String)) : SymMap :=
  entries.foldl (fun m e => if e.1 != "" && e.2 != "" then dictInsert m e.1 e.2 else m) []

/-- `{v: k for k, v in self.symbol_to_codename.items()}`. -/
def codename_to_symbol (s2c : SymMap) : SymMap :=
  s2c.foldl (fun m p => dictInsert m p.2 p.1) []

/-- Sequential file writes into one directory: a later write to the same
path overwrites the earlier one.  The resulting association list is the
final state of the output directory. -/
def applyWrites (ws : List (String × String)) : SymMap :=
  ws.foldl (fun fs w => dictInsert fs w.1 w.2) []

/-- Recognizer for the lexical pattern `\b\w+\.\w+` (an
`identifier.identifier` token): a word run starting at a word boundary,
a dot, and at least one further word character. -/
inductive DotSt where
  | base : DotSt
  | word : DotSt
  | dot : DotSt

def hasDottedGo : DotSt → List Char → Bool
  | _, [] => false
  | DotSt.base, c :: cs =>
    if isWordChar c then hasDottedGo DotSt.word cs else hasDottedGo DotSt.base cs
  | DotSt.word, c :: cs =>
    if isWordChar c then hasDottedGo DotSt.word cs
    else if c == '.' then hasDottedGo DotSt.dot cs
    else hasDottedGo DotSt.base cs
  | DotSt.dot, c :: cs => if isWordChar c then true else hasDottedGo DotSt.base cs

def hasDotted (l : String) : Bool := hasDottedGo DotSt.base l.data

theorem strMkData (s : String) : String.mk s.data = s := rfl

/-- A line with no `identifier.identifier` token is left unchanged by both
regex substitutions: the three scanners advance in lockstep. -/
theorem subs_fix_aux (cs : List Char) :
    (hasDottedGo DotSt.base cs = false →
      sub1Go Scan1.base cs = cs ∧ sub2Go Scan2.base cs = cs) ∧
    (∀ w, hasDottedGo DotSt.word cs = false →
      sub1Go (Scan1.word w) cs = w.reverse ++ cs ∧
        sub2Go (Scan2.word w) cs = w.reverse ++ cs) ∧
    (∀ w1, hasDottedGo DotSt.dot cs = false →
      sub1Go (Scan1.dot w1 []) cs = w1.reverse ++ '.' :: cs ∧
        sub2Go (Scan2.dot w1 []) cs = w1.reverse ++ '.' :: cs) := by
  induction cs with
  | nil =>
    refine ⟨fun _ => ⟨rfl, rfl⟩, fun w _ => ⟨?_, ?_⟩, fun w1 _ => ⟨?_, ?_⟩⟩ <;>
      simp [sub1Go, sub2Go, sub1Flush, sub2Flush]
  | cons c cs ih =>
    obtain ⟨ihB, ihW, ihD⟩ := ih
    by_cases hw : isWordChar c = true
    · refine ⟨fun h => ?_, fun w h => ?_, fun w1 h => ?_⟩
      · simp only [hasDottedGo, hw, if_true] at h
        have := ihW [c] h
        simpa [sub1Go, sub2Go, hw] using this
      · simp only [hasDottedGo, hw, if_true] at h
        have := ihW (c :: w) h
        simp [sub1Go, sub2Go, hw, this.1, this.2]
      · simp [hasDottedGo, hw] at h
    · have hw' : isWordChar c = false := by simpa using hw
      by_cases hd : c = '.'
      · subst hd
        refine ⟨fun h => ?_, fun w h => ?_, fun w1 h => ?_⟩
        · simp only [hasDottedGo, hw', if_false] at h
          have := ihB h
          simp [sub1Go, sub2Go, hw', this.1, this.2]
        · simp only [hasDottedGo, hw', if_false, beq_self_eq_true, if_true] at h
          have := ihD w h
          simp [sub1Go, sub2Go, hw', this.1, this.2]
        · simp only [hasDottedGo, hw', if_false] at h
          have := ihB h
          simp [sub1Go, sub2Go, hw', this.1, this.2]
      · have hd' : (c == '.') = false := by simpa using hd
        refine ⟨fun h => ?_, fun w h => ?_, fun w1 h => ?_⟩
        · simp only [hasDottedGo, hw', if_false] at h
          have := ihB h
          simp [sub1Go, sub2Go, hw', hd', this.1, this.2]
        · simp only [hasDottedGo, hw', hd', if_false] at h
          have := ihB h
          simp [sub1Go, sub2Go, hw', hd', this.1, this.2]
        · simp only [hasDottedGo, hw', if_false] at h
          have := ihB h
          simp [sub1Go, sub2Go, hw', hd', this.1, this.2]

theorem applySubs_fix (l : String) (h : hasDotted l = false) : applySubs l = l := by
  have h1 := ((subs_fix_aux l.data).1 h).1
  have h2 := ((subs_fix_aux l.data).1 h).2
  unfold applySubs sub1A sub2A at *
  rw [h1, h2, strMkData]

/-- `fwdClean st lines`: no line that sits in the `condition:` section
(under the state machine started at `st`) contains an
`identifier.identifier` token, so the forward transform rewrites
nothing. -/
def fwdClean : Bool × Bool → List String → Bool
  | _, [] => true
  | st, l :: ls =>
    let st2 := sectionStep st l
    (!st2.1 || !hasDotted l) && fwdClean st2 ls

theorem toCryptexLineOut_id (b : Bool) (l : String)
    (h : b = false ∨ applySubs l = l) : toCryptexLineOut b l = [l] := by
  rcases h with h | h <;> simp [toCryptexLineOut, h]

theorem toCryptexGo_fix (st : Bool × Bool) (ls : List String)
    (h : fwdClean st ls = true) : toCryptexGo st ls = ls := by
  induction ls generalizing st with
  | nil => rfl
  | cons l ls ih =>
    rw [fwdClean] at h
    simp only [Bool.and_eq_true, Bool.or_eq_true, Bool.not_eq_true'] at h
    have hl : toCryptexLineOut (sectionStep st l).1 l = [l] := by
      apply toCryptexLineOut_id
      rcases h.1 with h1 | h1
      · exact Or.inl h1
      · exact Or.inr (applySubs_fix l h1)
    rw [toCryptexGo, ih _ h.2, hl]
    rfl

/-- A generic fixed-point lemma for the reverse-substitution folds. -/
theorem foldl_fix {β : Type} (f : String → β → String) (l : String) (ps : List β)
    (h : ∀ p ∈ ps, f l p = l) : ps.foldl f l = l := by
  induction ps with
  | nil => rfl
  | cons p ps ih =>
    rw [List.foldl_cons, h p (List.mem_cons_self p ps)]
    exact ih fun q hq => h q (List.mem_cons_of_mem p hq)

/-- `revCleanLine c2s l`: the line carries no tag marker and contains no
module codename and no function codename, so the reverse transform leaves
it unchanged. -/
def revCleanLine (c2s : SymMap) (l : String) : Bool :=
  !containsSubS origMarker l &&
  reverse_module_map.all (fun p => !containsSubS p.1 l) &&
  c2s.all (fun p => !containsSubS p.1 l)

theorem revLineF_fix (c2s : SymMap) (l : String)
    (h : revCleanLine c2s l = true) : revLineF c2s l = [l] := by
  rw [revCleanLine] at h
  simp only [Bool.and_eq_true, Bool.not_eq_true', List.all_eq_true] at h
  obtain ⟨⟨hm, hmod⟩, hfun⟩ := h
  have hrem : remAfterFirst origMarker.data l.data = none := by
    have := hm
    unfold containsSubS at this
    exact Option.not_isSome_iff_eq_none.mp (by simp [this])
  have hmodf : revModuleFold l = l := by
    apply foldl_fix
    intro p hp
    simp [hmod p hp]
  have hfunf : revFuncFold c2s l = l := by
    apply foldl_fix
    intro p hp
    simp [hfun p hp]
  rw [revLineF, hrem, revSubLine, hmodf, hfunf]

theorem fromCryptexGo_fix (c2s : SymMap) (ls : List String)
    (h : ∀ l ∈ ls, revCleanLine c2s l = true) : fromCryptexGo c2s ls = ls := by
  induction ls with
  | nil => rfl
  | cons l ls ih =>
    rw [fromCryptexGo, revLineF_fix c2s l (h l (List.mem_cons_self l ls)),
      ih fun q hq => h q (List.mem_cons_of_mem l hq)]
    rfl

theorem toCryptexGo_append (st : Bool × Bool) (xs ys : List String) :
    toCryptexGo st (xs ++ ys) =
      toCryptexGo st xs ++ toCryptexGo (xs.foldl sectionStep st) ys := by
  induction xs generalizing st with
  | nil => rfl
  | cons l xs ih => simp [toCryptexGo, ih]

theorem fromCryptexGo_append (c2s : SymMap) (xs ys : List String) :
    fromCryptexGo c2s (xs ++ ys) = fromCryptexGo c2s xs ++ fromCryptexGo c2s ys := by
  induction xs with
  | nil => rfl
  | cons l xs ih => simp [fromCryptexGo, ih]

/-- The section state consumed by the streaming engine for one raw input
line. -/
def streamStep (st : Bool × Bool) (raw : String) : Bool × Bool :=
  sectionStep st (rstripNlCr raw)

theorem streamGo_append (c2s : SymMap) (mode : String) (st : Bool × Bool)
    (xs ys : List String) :
    streamGo c2s mode st (xs ++ ys) =
      streamGo c2s mode st xs ++ streamGo c2s mode (xs.foldl streamStep st) ys := by
  induction xs generalizing st with
  | nil => rfl
  | cons l xs ih => simp [streamGo, ih, streamStep]

/-- C1 (counterexample): the round-trip law fails.  For the rule text
`"condition:\n    pe.entry_point > 5"` — whose only touched reference, the
module `pe`, has a dictionary (module-alias) entry, and which touches no
function symbol — reversing the forward transform yields a three-line
text: the tag payload has lost its leading indentation and the rewritten
line is kept (substituted back) instead of being discarded, duplicating
the condition line. -/
theorem C1_roundtrip_counterexample :
    transcode_from_cryptex []
        (transcode_to_cryptex "condition:\n    pe.entry_point > 5") =
      "condition:\npe.entry_point > 5\n    pe.entry_point > 5" ∧
    "condition:\npe.entry_point > 5\n    pe.entry_point > 5" ≠
      "condition:\n    pe.entry_point > 5" := by decide

/-- C1 (amended): `reverse(forward(R)) == R` holds line for line exactly
when the forward transform rewrites nothing and the reverse transform
touches nothing: no `condition:`-section line contains an
`identifier.identifier` token (`fwdClean`), and no line carries the
`// Original:` marker or any module/function codename (`revCleanLine`).
Any line the forward transform actually rewrites breaks the law, as the
counterexample shows. -/
theorem C1_roundtrip_amended (c2s : SymMap) (lines : List String)
    (hf : fwdClean (false, false) lines = true)
    (hr : ∀ l ∈ lines, revCleanLine c2s l = true) :
    fromCryptexGo c2s (toCryptexGo (false, false) lines) = lines := by
  rw [toCryptexGo_fix _ _ hf, fromCryptexGo_fix c2s lines hr]

theorem C1_roundtrip_amended_witness :
    fromCryptexGo [("IronCurtain-Section", "pe_get_section")]
        (toCryptexGo (false, false)
          ["rule Test \x7b", "strings:", "    $a = \"abc\"", "condition:",
           "    $a and true", "\x7d"]) =
      ["rule Test \x7b", "strings:", "    $a = \"abc\"", "condition:",
       "    $a and true", "\x7d"] :=
  C1_roundtrip_amended [("IronCurtain-Section", "pe_get_section")]
    ["rule Test \x7b", "strings:", "    $a = \"abc\"", "condition:",
     "    $a and true", "\x7d"] (by decide) (by decide)

/-- C2 (counterexample): with dictionary entry
`pe_get_section ↦ IronCurtain-Section`, forward-transforming the
`CONDITION`-section line `    pe.get_section(0) > 5` does NOT yield
`    IronCurtain.get_section(0) > 5`: the second substitution pass
re-translates the already translated module prefix, producing
`    Module-Ironcurtain.get_section(0) > 5`; and reverse-transforming the
two lines the claim expects yields two lines (payload unindented, the
following line kept), not the original single line. -/
theorem C2_scenarioA_counterexample :
    toCryptexLineOut true "    pe.get_section(0) > 5" =
      ["    // Original: pe.get_section(0) > 5",
       "    Module-Ironcurtain.get_section(0) > 5"] ∧
    "    Module-Ironcurtain.get_section(0) > 5" ≠
      "    IronCurtain.get_section(0) > 5" ∧
    fromCryptexGo
        (codename_to_symbol (build_symbol_map [("pe_get_section", "IronCurtain-Section")]))
        ["    // Original: pe.get_section(0) > 5",
         "    IronCurtain.get_section(0) > 5"] =
      ["pe.get_section(0) > 5", "    pe.get_section(0) > 5"] ∧
    (["pe.get_section(0) > 5", "    pe.get_section(0) > 5"] : List String) ≠
      ["    pe.get_section(0) > 5"] := by decide

/-- C2 (amended): the actual outputs of scenario A.  Forward-transforming
`condition:` followed by `    pe.get_section(0) > 5` yields the tag line
`    // Original: pe.get_section(0) > 5` and then
`    Module-Ironcurtain.get_section(0) > 5`; reverse-transforming the pair
the original claim names yields `pe.get_section(0) > 5` (indentation lost)
followed by `    pe.get_section(0) > 5` (the obfuscated line substituted
back and kept). -/
theorem C2_scenarioA_amended :
    transcode_rule_content
        (codename_to_symbol (build_symbol_map [("pe_get_section", "IronCurtain-Section")]))
        "condition:\n    pe.get_section(0) > 5" "to_cryptex" =
      "condition:\n    // Original: pe.get_section(0) > 5\n    Module-Ironcurtain.get_section(0) > 5" ∧
    transcode_rule_content
        (codename_to_symbol (build_symbol_map [("pe_get_section", "IronCurtain-Section")]))
        "    // Original: pe.get_section(0) > 5\n    IronCurtain.get_section(0) > 5"
        "from_cryptex" =
      "pe.get_section(0) > 5\n    pe.get_section(0) > 5" := by decide

/-- C3 (counterexample): a tag line is replaced by its payload, but the
obfuscated line that immediately follows is NOT discarded — it is
substituted back and kept, so the pair produces two output lines, not
one. -/
theorem C3_tag_pair_counterexample :
    fromCryptexGo []
        ["    // Original: pe.entry_point > 5", "    IronCurtain.entry_point > 5"] =
      ["pe.entry_point > 5", "    pe.entry_point > 5"] ∧
    (["pe.entry_point > 5", "    pe.entry_point > 5"] : List String) ≠
      ["pe.entry_point > 5"] := by decide

/-- C3 (amended): in the reverse transform, a line carrying an
`OriginalTag` with parsable payload `p` contributes exactly `p`, and the
immediately following line is NOT consumed with it: it is processed
independently like any other line (here: a line without marker, which
contributes its substituted form). -/
theorem C3_tag_line_amended (c2s : SymMap) (pre suf : List String)
    (t l p : String) (r : List Char)
    (hm : remAfterFirst origMarker.data t.data = some r)
    (hp : tagPayload r = some p)
    (hl : remAfterFirst origMarker.data l.data = none) :
    fromCryptexGo c2s (pre ++ t :: l :: suf) =
      fromCryptexGo c2s pre ++ p :: revSubLine c2s l :: fromCryptexGo c2s suf := by
  rw [fromCryptexGo_append]
  simp [fromCryptexGo, revLineF, hm, hp, hl]

theorem C3_tag_line_amended_witness :
    fromCryptexGo []
        ([] ++ "    // Original: pe.entry_point > 5" :: "    IronCurtain.entry_point > 5" :: []) =
      fromCryptexGo [] [] ++ "pe.entry_point > 5" ::
        revSubLine [] "    IronCurtain.entry_point > 5" :: fromCryptexGo [] [] :=
  C3_tag_line_amended [] [] [] "    // Original: pe.entry_point > 5"
    "    IronCurtain.entry_point > 5" "pe.entry_point > 5"
    " pe.entry_point > 5".data (by decide) (by decide) (by decide)

/-- C4 (confirmed): section scoping.  Any line whose running section state
is `STRINGS` (`in_condition = false`, `in_strings = true` after its own
section-detection step) passes through the forward transform unchanged and
with no tag emitted, whatever tokens it contains; the very token
`pe.entry_point` on a `CONDITION`-section line is rewritten (to
`IronCurtain.entry_point`, with a tag emitted). -/
theorem C4_section_scoping :
    (∀ (st : Bool × Bool) (pre suf : List String) (l : String),
        List.foldl sectionStep st (pre ++ [l]) = (false, true) →
        toCryptexGo st (pre ++ l :: suf) =
          toCryptexGo st pre ++ l :: toCryptexGo (false, true) suf) ∧
    toCryptexLineOut true "    pe.entry_point > 5" =
      ["    // Original: pe.entry_point > 5", "    IronCurtain.entry_point > 5"] ∧
    "    IronCurtain.entry_point > 5" ≠ "    pe.entry_point > 5" := by
  refine ⟨?_, by decide, by decide⟩
  intro st pre suf l h
  have h2 : sectionStep (List.foldl sectionStep st pre) l = (false, true) := by
    simpa [List.foldl_append] using h
  rw [toCryptexGo_append st pre (l :: suf)]
  have hstep : toCryptexGo (List.foldl sectionStep st pre) (l :: suf) =
      l :: toCryptexGo (false, true) suf := by
    simp [toCryptexGo, h2, toCryptexLineOut_id false l (Or.inl rfl)]
  rw [hstep]

theorem C4_section_scoping_witness :
    toCryptexGo (false, false) (["strings:"] ++ "    pe.entry_point > 5" :: []) =
      toCryptexGo (false, false) ["strings:"] ++
        "    pe.entry_point > 5" :: toCryptexGo (false, true) [] :=
  C4_section_scoping.1 (false, false) ["strings:"] [] "    pe.entry_point > 5" (by decide)

/-- C5 (confirmed): partial-failure containment in
`stream_transcode_zip`.  For any archive of three rule-file entries where
the per-entry transform (the `try`-block body) raises on entry 2 and
succeeds on entries 1 and 3, the event stream is exactly: one `started`
event before any entry, a `processing` event for entry 1, exactly one
`error` event naming entry 2, a `processing` event for entry 3 (the batch
continues past the failure), and one final `completed` event with
transcoded count 2; output files are written for entries 1 and 3 only. -/
theorem C5_partial_failure (transform : String → Except String String)
    (zp od n1 n2 n3 c1 c2 c3 t1 t3 msg : String)
    (h1 : isRuleEntry n1 = true) (h2 : isRuleEntry n2 = true)
    (h3 : isRuleEntry n3 = true)
    (e1 : transform c1 = Except.ok t1) (e2 : transform c2 = Except.error msg)
    (e3 : transform c3 = Except.ok t3) :
    stream_transcode_zip transform [(n1, c1), (n2, c2), (n3, c3)] zp od =
      ([ZipEvent.started 3 zp,
        ZipEvent.processing n1 (od ++ "/" ++ baseName n1) "1/3",
        ZipEvent.error n2 msg,
        ZipEvent.processing n3 (od ++ "/" ++ baseName n3) "2/3",
        ZipEvent.completed 3 2 od],
       [(od ++ "/" ++ baseName n1, t1), (od ++ "/" ++ baseName n3, t3)]) := by
  unfold stream_transcode_zip
  simp only [List.filter, h1, h2, h3]
  simp [streamZipLoop, e1, e2, e3]
  exact ⟨by decide, by decide⟩

theorem C5_partial_failure_witness :
    stream_transcode_zip
        (fun c => if c == "bad" then Except.error "boom" else Except.ok c)
        [("a.yar", "ok1"), ("b.yar", "bad"), ("c.yar", "ok3")] "rules.zip" "out" =
      ([ZipEvent.started 3 "rules.zip",
        ZipEvent.processing "a.yar" ("out" ++ "/" ++ baseName "a.yar") "1/3",
        ZipEvent.error "b.yar" "boom",
        ZipEvent.processing "c.yar" ("out" ++ "/" ++ baseName "c.yar") "2/3",
        ZipEvent.completed 3 2 "out"],
       [("out" ++ "/" ++ baseName "a.yar", "ok1"),
        ("out" ++ "/" ++ baseName "c.yar", "ok3")]) :=
  C5_partial_failure (fun c => if c == "bad" then Except.error "boom" else Except.ok c)
    "rules.zip" "out" "a.yar" "b.yar" "c.yar" "ok1" "bad" "ok3" "ok1" "ok3" "boom"
    (by decide) (by decide) (by decide) rfl rfl rfl

/-- C6 (counterexample): forward-transforming the `CONDITION`-section line
`foo.bar(1)` (module `foo` unknown) does not yield `Module-Foo.bar(1)`:
the function-call pass re-translates the already translated prefix, so the
transformed line is `Module-Module-Foo.bar(1)`. -/
theorem C6_unknown_module_counterexample :
    toCryptexLineOut true "foo.bar(1)" =
      ["    // Original: foo.bar(1)", "Module-Module-Foo.bar(1)"] ∧
    "Module-Module-Foo.bar(1)" ≠ "Module-Foo.bar(1)" := by decide

/-- C6 (amended): the procedural fallback itself is total and
deterministic — any module name missing from the alias table resolves to
`Module-<Titlecase name>`, so `foo` resolves to `Module-Foo` — but
forward-transforming the `CONDITION`-section line `foo.bar(1)` yields the
tag line `    // Original: foo.bar(1)` followed by
`Module-Module-Foo.bar(1)` (the second substitution pass re-applies the
fallback to the already rewritten prefix); being a pure function of the
line, this output is the same on every run. -/
theorem C6_unknown_module_amended :
    (∀ name : String, lookupStr (pyLower name) module_mappings = none →
      translate_module_reference name = "Module-" ++ pyTitle name) ∧
    translate_module_reference "foo" = "Module-Foo" ∧
    toCryptexLineOut true "foo.bar(1)" =
      ["    // Original: foo.bar(1)", "Module-Module-Foo.bar(1)"] := by
  refine ⟨?_, by decide, by decide⟩
  intro name h
  rw [translate_module_reference, h]
  rfl

theorem C6_unknown_module_amended_witness :
    translate_module_reference "foo" = "Module-" ++ pyTitle "foo" :=
  C6_unknown_module_amended.1 "foo" (by decide)

/-- C7 (counterexample): reverse substitution is NOT word-boundary
anchored: the codename `IronCurtain` occurring strictly inside the larger
word `fooIronCurtainbar` is still replaced, giving `foopebar`, whereas
the claimed whole-word-only substitution would leave the line
unchanged. -/
theorem C7_reverse_substitution_counterexample :
    fromCryptexGo [] ["fooIronCurtainbar"] = ["foopebar"] ∧
    ("foopebar" : String) ≠ "fooIronCurtainbar" := by decide

/-- C7 (amended): a tagless line undergoes plain substring replacement in
fixed table-iteration order (the static module table first, then the
function-codename map): every occurrence of a codename is replaced,
including occurrences inside larger words and repeated occurrences, and a
codename already destroyed by an earlier module replacement is no longer
seen by the later function pass — no word-boundary anchoring and no
longest-match-first resolution. -/
theorem C7_reverse_substitution_amended :
    (∀ (c2s : SymMap) (l : String),
        remAfterFirst origMarker.data l.data = none →
        revLineF c2s l = [revSubLine c2s l]) ∧
    fromCryptexGo [] ["fooIronCurtainbar"] = ["foopebar"] ∧
    fromCryptexGo [] ["IronCurtain and IronCurtainX"] = ["pe and peX"] ∧
    fromCryptexGo [("IronCurtain-Section", "pe_get_section")]
        ["IronCurtain-Section.x"] = ["pe-Section.x"] := by
  refine ⟨?_, by decide, by decide, by decide⟩
  intro c2s l h
  rw [revLineF, h]

theorem C7_reverse_substitution_amended_witness :
    revLineF [] "IronCurtain.x" = [revSubLine [] "IronCurtain.x"] :=
  C7_reverse_substitution_amended.1 [] "IronCurtain.x" (by decide)

/-- C8 (counterexample): a reverse-direction line that carries the
`// Original:` marker but whose payload cannot be parsed (the marker ends
the line) is dropped entirely — it contributes zero output lines — rather
than being recovered by substitution-based reversal (which would have
yielded the line back unchanged here). -/
theorem C8_malformed_tag_counterexample :
    fromCryptexGo [] ["// Original:"] = ([] : List String) ∧
    ([] : List String) ≠ ["// Original:"] := by decide

/-- C8 (amended): a line recognized as carrying the `OriginalTag` marker
whose payload fails to parse is silently consumed, producing no output
line; the pass is not aborted — lines before and after it are processed
normally. -/
theorem C8_malformed_tag_amended (c2s : SymMap) (pre suf : List String)
    (l : String) (r : List Char)
    (hm : remAfterFirst origMarker.data l.data = some r)
    (hp : tagPayload r = none) :
    fromCryptexGo c2s (pre ++ l :: suf) =
      fromCryptexGo c2s pre ++ fromCryptexGo c2s suf := by
  rw [fromCryptexGo_append]
  simp [fromCryptexGo, revLineF, hm, hp]

theorem C8_malformed_tag_amended_witness :
    fromCryptexGo [] (["x"] ++ "// Original:" :: ["y"]) =
      fromCryptexGo [] ["x"] ++ fromCryptexGo [] ["y"] :=
  C8_malformed_tag_amended [] ["x"] ["y"] "// Original:" [] (by decide) (by decide)

/-- C9 (confirmed): determinism and restartability of the streaming
transcoder.  Two transcoders sharing the same symbol-map snapshot produce
identical output on identical input (the output is a pure function of
map, mode and line sequence), and the generator state is a pure function
of the consumed line history: processing `xs ++ ys` equals processing
`xs` and then resuming, from a freshly computed state `foldl streamStep`,
on `ys`. -/
theorem C9_determinism (m1 m2 : SymMap) (mode : String) (lines : List String)
    (h : m1 = m2) :
    stream_transcode_lines m1 mode lines = stream_transcode_lines m2 mode lines ∧
    ∀ (st : Bool × Bool) (xs ys : List String),
      streamGo m1 mode st (xs ++ ys) =
        streamGo m1 mode st xs ++ streamGo m1 mode (xs.foldl streamStep st) ys := by
  subst h
  exact ⟨rfl, fun st xs ys => streamGo_append m1 mode st xs ys⟩

theorem C9_determinism_witness :
    streamGo [] "to_cryptex" (false, false) (["condition:"] ++ ["    pe.x > 1"]) =
      streamGo [] "to_cryptex" (false, false) ["condition:"] ++
        streamGo [] "to_cryptex"
          (List.foldl streamStep (false, false) ["condition:"]) ["    pe.x > 1"] :=
  (C9_determinism [] [] "to_cryptex" [] rfl).2 (false, false) ["condition:"]
    ["    pe.x > 1"]

theorem streamZipLoop_writes (transform : String → Except String String)
    (od : String) (total : Nat) (fl : List (String × String)) :
    ∀ (count : Nat) (w : String × String),
      w ∈ (streamZipLoop transform od total count fl).2 →
      ∃ e ∈ fl, w.1 = od ++ "/" ++ baseName e.1 := by
  induction fl with
  | nil =>
    intro count w hw
    simp [streamZipLoop] at hw
  | cons e fl ih =>
    intro count w hw
    rw [streamZipLoop] at hw
    cases he : transform e.2 with
    | ok t =>
      rw [he] at hw
      simp only [List.mem_cons] at hw
      rcases hw with hw | hw
      · exact ⟨e, List.mem_cons_self e fl, by rw [hw]⟩
      · obtain ⟨f, hf, hp⟩ := ih (count + 1) w hw
        exact ⟨f, List.mem_cons_of_mem e hf, hp⟩
    | error msg =>
      rw [he] at hw
      obtain ⟨f, hf, hp⟩ := ih count w hw
      exact ⟨f, List.mem_cons_of_mem e hf, hp⟩

/-- C10 (confirmed): output-path collision in the archive batch
processor.  Every file write produced by `stream_transcode_zip` targets
the output directory joined with only the base name of some rule-file
entry (archive directory components are stripped); concretely, the
archive `[a/x.yar, b/x.yar]` writes both outputs to `out/x.yar`, the
later write overwriting the earlier, so the final directory holds one
file while the `completed` event reports a transcoded count of 2. -/
theorem C10_output_path_collision :
    (∀ (transform : String → Except String String)
        (entries : List (String × String)) (zp od : String) (w : String × String),
        w ∈ (stream_transcode_zip transform entries zp od).2 →
        ∃ e ∈ entries, isRuleEntry e.1 = true ∧ w.1 = od ++ "/" ++ baseName e.1) ∧
    stream_transcode_zip_run [] "to_cryptex"
        [("a/x.yar", "c1"), ("b/x.yar", "c2")] "z.zip" "out" =
      ([ZipEvent.started 2 "z.zip",
        ZipEvent.processing "a/x.yar" "out/x.yar" "1/2",
        ZipEvent.processing "b/x.yar" "out/x.yar" "2/2",
        ZipEvent.completed 2 2 "out"],
       [("out/x.yar", "c1\n"), ("out/x.yar", "c2\n")]) ∧
    applyWrites [("out/x.yar", "c1\n"), ("out/x.yar", "c2\n")] =
      [("out/x.yar", "c2\n")] ∧
    (applyWrites [("out/x.yar", "c1\n"), ("out/x.yar", "c2\n")]).length = 1 ∧
    (1 : Nat) < 2 := by
  refine ⟨?_, by decide, by decide, by decide, by decide⟩
  intro transform entries zp od w hw
  unfold stream_transcode_zip at hw
  simp only at hw
  obtain ⟨e, he, hp⟩ := streamZipLoop_writes transform od _ _ 0 w hw
  have hmem := List.mem_filter.mp he
  exact ⟨e, hmem.1, hmem.2, hp⟩

theorem C10_output_path_collision_witness :
    ∃ e ∈ [("a/x.yar", "c1"), ("b/x.yar", "c2")], isRuleEntry e.1 = true ∧
      ("out/x.yar", ("c1\n" : String)).1 = "out" ++ "/" ++ baseName e.1 :=
  C10_output_path_collision.1 (zipEntryTransform [] "to_cryptex")
    [("a/x.yar", "c1"), ("b/x.yar", "c2")] "z.zip" "out"
    ("out/x.yar", "c1\n") (by decide)
